import Mathlib

/-!
# Verification of the kawaiigpt analysis scripts

Shallow embedding of the fact-extraction, keyword-categorization and
report-rendering logic of the repository's analysis scripts
(`extract_knowledge.py`, `sensai_feature_analysis.py`,
`enhanced_sensai_analysis.py`, `analyze_kawaiigpt.py`), together with
theorems settling the specification's claims about them.

Python strings are modelled as Lean `String`; `str.lower()` and
`str.title()` are modelled by their ASCII behaviour (the identifiers and
dependency strings handled by the scripts are ASCII).  The Python AST is
modelled by the inductive `PyNode`, covering exactly the node kinds the
scripts dispatch on; `ast.walk` is modelled by `walk` (the scripts only
aggregate per-node output, so the BFS order of `ast.walk` versus the
preorder of `walk` is immaterial to every statement below).
-/

namespace Kg

/-- Python `kw in s` on char lists: does `kw` occur at the head of `l`? -/
def charsHasPre : List Char → List Char → Bool
  | [], _ => true
  | _ :: _, [] => false
  | a :: ka, b :: lb => a == b && charsHasPre ka lb

/-- Python `kw in s` on char lists: does `kw` occur anywhere inside `l`? -/
def occursIn : List Char → List Char → Bool
  | kw, [] => kw.isEmpty
  | kw, c :: t => charsHasPre kw (c :: t) || occursIn kw t

/-- Python's substring test `kw in s`. -/
def substrOf (kw s : String) : Bool := occursIn kw.data s.data

/-- Python `str.lower()` (ASCII behaviour, per-character lowering). -/
def pyLower (s : String) : String := ⟨s.data.map Char.toLower⟩

/-- Python `os.path.basename` for POSIX paths: the part after the last slash. -/
def pyBasename (p : String) : String := (p.splitOn "/").getLastD p

/-- A triple/quad record as built by `extract_knowledge.py`: every dict literal
constructed there carries all five keys, so all fields are total. -/
structure Fact where
  subject : String
  predicate : String
  object : String
  context : String
  graph : String
deriving DecidableEq, Repr

/-- The Python AST fragment the scripts dispatch on (`ast.FunctionDef`,
`ast.ClassDef`, `ast.Import`, `ast.ImportFrom`, `ast.Assign`, `ast.Call`,
`ast.Name`, `ast.Attribute`); every other statement/expression kind is
`otherNode`.  Import aliases are `(name, asname)` pairs; `ast.arg` nodes are
carried as their `.arg` strings since no extraction rule reads them as nodes,
and decorator expressions are child nodes of `functionDef`. -/
inductive PyNode where
  | module (body : List PyNode)
  | functionDef (name : String) (args : List String) (decorators : List PyNode)
      (body : List PyNode) (lineno : Nat)
  | classDef (name : String) (bases : List PyNode) (body : List PyNode) (lineno : Nat)
  | importStmt (names : List (String × Option String))
  | importFrom (module : Option String) (names : List (String × Option String))
  | assign (targets : List PyNode) (value : PyNode) (lineno : Nat)
  | callExpr (func : PyNode) (args : List PyNode)
  | nameExpr (id : String)
  | attrExpr (value : PyNode) (attr : String)
  | passStmt
  | otherNode (children : List PyNode)

mutual

/-- `ast.walk`: the node itself followed by all its descendants. -/
def walk : PyNode → List PyNode
  | .module body => .module body :: walkList body
  | .functionDef name args decorators body ln =>
      .functionDef name args decorators body ln :: (walkList decorators ++ walkList body)
  | .classDef name bases body ln =>
      .classDef name bases body ln :: (walkList bases ++ walkList body)
  | .importStmt names => [.importStmt names]
  | .importFrom mod names => [.importFrom mod names]
  | .assign targets value ln =>
      .assign targets value ln :: (walkList targets ++ walk value)
  | .callExpr func args => .callExpr func args :: (walk func ++ walkList args)
  | .nameExpr id => [.nameExpr id]
  | .attrExpr value attr => .attrExpr value attr :: walk value
  | .passStmt => [.passStmt]
  | .otherNode children => .otherNode children :: walkList children

def walkList : List PyNode → List PyNode
  | [] => []
  | n :: rest => walk n ++ walkList rest

end

/-- `extract_triples_from_ast` from `extract_knowledge.py` (the unused
`context=""` parameter of the source is dropped). -/
def extract_triples_from_ast (node : PyNode) (file_path : String) : List Fact :=
  match node with
  | .functionDef name args _decorators _body _ln =>
      { subject := name, predicate := "is_a", object := "function",
        context := file_path, graph := "code_structure" }
      :: args.map (fun a =>
        { subject := name, predicate := "has_parameter", object := a,
          context := file_path, graph := "code_structure" })
  | .classDef name bases _body _ln =>
      { subject := name, predicate := "is_a", object := "class",
        context := file_path, graph := "code_structure" }
      :: bases.filterMap (fun b =>
        match b with
        | .nameExpr id => some
            { subject := name, predicate := "inherits_from", object := id,
              context := file_path, graph := "inheritance" }
        | _ => none)
  | .importStmt names =>
      names.map (fun al =>
        { subject := pyBasename file_path, predicate := "imports", object := al.1,
          context := file_path, graph := "dependencies" })
  | .importFrom mod names =>
      match mod with
      | some m =>
          names.map (fun al =>
            { subject := pyBasename file_path, predicate := "imports_from",
              object := m ++ "." ++ al.1, context := file_path, graph := "dependencies" })
      | none => []
  | .assign targets _value _ln =>
      targets.filterMap (fun t =>
        match t with
        | .nameExpr id => some
            { subject := id, predicate := "assigned_in", object := pyBasename file_path,
              context := file_path, graph := "code_structure" }
        | _ => none)
  | .callExpr func _args =>
      match func with
      | .nameExpr id =>
          [{ subject := pyBasename file_path, predicate := "calls", object := id,
             context := file_path, graph := "call_graph" }]
      | _ => []
  | _ => []

/-- `extract_quads_from_relationships` from `extract_knowledge.py`.  The
source reads `triple.get('graph', 'default')` and
`triple.get('context', file_path)`; since every triple dict built by
`extract_triples_from_ast` carries both keys, the defaults never fire and the
quad copies the fields. -/
def extract_quads_from_relationships (triples : List Fact) (_file_path : String) : List Fact :=
  triples.map (fun t =>
    { subject := t.subject, predicate := t.predicate, object := t.object,
      graph := t.graph, context := t.context })

/-- The `all_triples.extend(extract_triples_from_ast(node, ...))` loop of
`analyze_file`. -/
def extractAll (nodes : List PyNode) (file_path : String) : List Fact :=
  match nodes with
  | [] => []
  | n :: rest => extract_triples_from_ast n file_path ++ extractAll rest file_path

/-- The per-file result dict of `analyze_file`. -/
structure AnalysisResult where
  file : String
  error : Option String
  triples : List Fact
  quads : List Fact
deriving DecidableEq, Repr

/-- `analyze_file` from `extract_knowledge.py`.  The fallible
read-and-`ast.parse` prefix is modelled by the `Except` argument: `.ok tree`
is a successful parse, `.error e` is any exception raised while reading or
parsing, which the source's `except` branch turns into an error record. -/
def analyze_file (parse_result : Except String PyNode) (file_path : String) : AnalysisResult :=
  match parse_result with
  | .ok tree =>
      let all_triples := extractAll (walk tree) file_path
      { file := file_path, error := none, triples := all_triples,
        quads := extract_quads_from_relationships all_triples file_path }
  | .error e =>
      { file := file_path, error := some e, triples := [], quads := [] }

/-- One entry of the driver's `files_analyzed` list. -/
structure FileEntry where
  file : String
  triple_count : Nat
  quad_count : Nat
deriving DecidableEq, Repr

/-- The driver's accumulated `results` dict. -/
structure ExtractionResults where
  triples : List Fact
  quads : List Fact
  files_analyzed : List FileEntry
deriving DecidableEq, Repr

/-- The `for py_file in python_files` loop of `extract_semantic_relationships`:
a `none` outcome is a file for which `py_file.exists()` is false (skipped), a
`some` outcome is the read-and-parse result handed to `analyze_file`.  The
source appends each file's items to growing lists; the recursion below builds
the same lists. -/
def runExtraction : List (String × Option (Except String PyNode)) → ExtractionResults
  | [] => { triples := [], quads := [], files_analyzed := [] }
  | (_, none) :: rest => runExtraction rest
  | (fp, some outcome) :: rest =>
      let r := analyze_file outcome fp
      let rec_ := runExtraction rest
      { triples := r.triples ++ rec_.triples,
        quads := r.quads ++ rec_.quads,
        files_analyzed := { file := fp, triple_count := r.triples.length,
                            quad_count := r.quads.length } :: rec_.files_analyzed }

/-! ## `sensai_feature_analysis.py`: keyword categorizer and feature analysis -/

/-- The ordered keyword table of `FeatureCategorizer.categorize_feature`: the
source is a chain of `if any(keyword in name_lower for keyword in [...])`
tests, one per row below, in source order. -/
def categorization_rules : List (String × List String) :=
  [("installation", ["install", "setup", "package", "dependencies"]),
   ("platform_detection", ["detect", "os", "platform", "termux", "linux", "android"]),
   ("configuration", ["config", "setting", "mode", "option"]),
   ("user_interface", ["ui", "interface", "display", "show", "print", "prompt"]),
   ("api_integration", ["api", "request", "http", "client", "fetch"]),
   ("voice_processing", ["voice", "tts", "audio", "sound", "alsa", "speak"]),
   ("translation", ["translate", "translation", "language"]),
   ("cryptography", ["crypto", "encrypt", "decrypt", "hash", "secure"]),
   ("data_processing", ["process", "parse", "transform", "convert", "generate"]),
   ("error_handling", ["error", "exception", "try", "catch", "handle"]),
   ("utilities", ["util", "helper", "common", "shared", "base"])]

/-- One `if any(keyword in name_lower for keyword in [...])` test of
`categorize_feature`. -/
def ruleMatches (feature_name : String) (r : String × List String) : Bool :=
  r.2.any (fun kw => substrOf kw (pyLower feature_name))

/-- `FeatureCategorizer.categorize_feature`: first matching rule wins,
default `"utilities"`.  The source's `feature_type` and `context` parameters
are never read by its body and are dropped here. -/
def categorize_feature (feature_name : String) : String :=
  match categorization_rules.find? (ruleMatches feature_name) with
  | some r => r.1
  | none => "utilities"

/-- The fixed vocabulary of labels `categorize_feature` can return. -/
def categoryLabels : List String := categorization_rules.map Prod.fst ++ ["utilities"]

/-- A feature/symbol dict as built by `analyze_python_file` and
`_analyze_with_regex`: `name` and `type` are always present, `line`, `args`
and `methods` only on some paths (an absent dict key is `none`).  The
`decorators` and `bases` keys (unparsed decorator/base strings) are omitted:
nothing in the embedded scripts or the claims ever reads them. -/
structure SymbolRec where
  name : String
  ty : String
  line : Option Nat
  args : Option (List String)
  methods : Option (List String)
deriving DecidableEq, Repr

/-- An import dict: `module` and `type` always present; the AST path also
stores `alias` (Python `None` and an absent key are both `none` here — the
regex path builds the dict without the key, and nothing reads it). -/
structure ImportRec where
  module : String
  asname : Option String
  ty : String
deriving DecidableEq, Repr

/-- `collections.defaultdict(list)` keyed by category, as an insertion-ordered
association list; `addToCategory` is `d[category].append(item)`. -/
def addToCategory (m : List (String × List SymbolRec)) (cat : String) (item : SymbolRec) :
    List (String × List SymbolRec) :=
  match m with
  | [] => [(cat, [item])]
  | (k, v) :: rest =>
      if k = cat then (k, v ++ [item]) :: rest else (k, v) :: addToCategory rest cat item

/-- `d[category]` read-back on the association list (`[]` for a missing key,
matching `defaultdict(list)`). -/
def lookupCat (m : List (String × List SymbolRec)) (cat : String) : List SymbolRec :=
  match m with
  | [] => []
  | (k, v) :: rest => if k = cat then v else lookupCat rest cat

/-- The per-file `features` dict of `analyze_python_file`. -/
structure Features where
  file : String
  functions : List SymbolRec
  classes : List SymbolRec
  imports : List ImportRec
  variables_ : List SymbolRec
  features_by_category : List (String × List SymbolRec)
  note : Option String
deriving DecidableEq, Repr

def emptyFeatures (file_path : String) : Features :=
  { file := file_path, functions := [], classes := [], imports := [],
    variables_ := [], features_by_category := [], note := none }

/-- Body of the first `for node in ast.walk(tree)` loop of
`analyze_python_file` (import extraction). -/
def importPass (st : Features) (n : PyNode) : Features :=
  match n with
  | .importStmt names =>
      { st with imports := st.imports ++ names.map (fun al =>
          { module := al.1, asname := al.2, ty := "import" }) }
  | .importFrom mod names =>
      -- source: `module = node.module or ''` then
      -- `f"{module}.{alias.name}" if module else alias.name`
      let module := mod.getD ""
      { st with imports := st.imports ++ names.map (fun al =>
          { module := if module ≠ "" then module ++ "." ++ al.1 else al.1,
            asname := al.2, ty := "import_from" }) }
  | _ => st

/-- The `var_info` dict built for a bare-name assignment target. -/
def varRecOf (id : String) (ln : Nat) : SymbolRec :=
  { name := id, ty := "variable", line := some ln, args := none, methods := none }

/-- The `for target in node.targets` loop body for an `ast.Assign` node in
`analyze_python_file`: record the variable, and categorize it only when its
name is longer than three characters and its category is not `"utilities"`. -/
def assignTargetStep (ln : Nat) (st : Features) (t : PyNode) : Features :=
  match t with
  | .nameExpr id =>
      let var_info := varRecOf id ln
      let st := { st with variables_ := st.variables_ ++ [var_info] }
      if 3 < id.length then
        let category := categorize_feature id
        if category ≠ "utilities" then
          { st with features_by_category :=
              addToCategory st.features_by_category category var_info }
        else st
      else st
  | _ => st

/-- Body of the second `for node in ast.walk(tree)` loop of
`analyze_python_file` (functions, classes, assignments).  The
`self.categories[category].append(...)` instance-level aggregation is not
modelled: no claim reads it. -/
def featurePass (st : Features) (n : PyNode) : Features :=
  match n with
  | .functionDef name args _decorators _body ln =>
      let func_info : SymbolRec :=
        { name := name, ty := "function", line := some ln, args := some args, methods := none }
      let category := categorize_feature name
      { st with functions := st.functions ++ [func_info],
                features_by_category := addToCategory st.features_by_category category
                  { name := name, ty := "function", line := some ln, args := none, methods := none } }
  | .classDef name _bases body ln =>
      let class_info : SymbolRec :=
        { name := name, ty := "class", line := some ln, args := none,
          methods := some (body.filterMap (fun b =>
            match b with
            | .functionDef m _ _ _ _ => some m
            | _ => none)) }
      let category := categorize_feature name
      { st with classes := st.classes ++ [class_info],
                features_by_category := addToCategory st.features_by_category category
                  { name := name, ty := "class", line := some ln, args := none, methods := none } }
  | .assign targets _value ln => targets.foldl (assignTargetStep ln) st
  | _ => st

/-! ### The regex fallback `_analyze_with_regex`

The three patterns are `def\s+(\w+)\s*\(`, `class\s+(\w+)` and
`^(?:from\s+(\S+)\s+)?import\s+(\S+)` (the last with `re.MULTILINE`).  In all
three, adjacent quantified pieces draw from disjoint character classes (or are
followed by a literal outside the class), so greedy maximal munch never needs
to backtrack within a variant; the only regex alternative is the optional
`from` group, tried with the group first as the engine does.  `\w` and `\s`
are modelled by their ASCII behaviour. -/

/-- Python regex `\w` (ASCII behaviour). -/
def pyWordChar (c : Char) : Bool := c.isAlphanum || c == '_'

/-- Python regex `\s`: `[ \t\n\r\f\v]`. -/
def pySpace (c : Char) : Bool :=
  c == ' ' || c == '\t' || c == '\n' || c == '\r' || c == '\x0c' || c == '\x0b'

/-- Python regex `\S`. -/
def pyNonSpace (c : Char) : Bool := !pySpace c

/-- Length of the maximal munch of a character class at the head of `l`. -/
def munchWhile (p : Char → Bool) (l : List Char) : Nat := (l.takeWhile p).length

/-- Match `def\s+(\w+)\s*\(` at the head of `l`; returns the capture and the
number of characters consumed. -/
def matchDefAt (l : List Char) : Option (String × Nat) :=
  if charsHasPre "def".data l then
    let l1 := l.drop 3
    let s1 := munchWhile pySpace l1
    if s1 == 0 then none else
    let l2 := l1.drop s1
    let w := munchWhile pyWordChar l2
    if w == 0 then none else
    let l3 := l2.drop w
    let s2 := munchWhile pySpace l3
    match l3.drop s2 with
    | '(' :: _ => some (⟨l2.take w⟩, 3 + s1 + w + s2 + 1)
    | _ => none
  else none

/-- Match `class\s+(\w+)` at the head of `l`. -/
def matchClassAt (l : List Char) : Option (String × Nat) :=
  if charsHasPre "class".data l then
    let l1 := l.drop 5
    let s1 := munchWhile pySpace l1
    if s1 == 0 then none else
    let l2 := l1.drop s1
    let w := munchWhile pyWordChar l2
    if w == 0 then none else some (⟨l2.take w⟩, 5 + s1 + w)
  else none

/-- Match `import\s+(\S+)` at the head of `l`. -/
def matchImportTail (l : List Char) : Option (String × Nat) :=
  if charsHasPre "import".data l then
    let l1 := l.drop 6
    let s1 := munchWhile pySpace l1
    if s1 == 0 then none else
    let l2 := l1.drop s1
    let w := munchWhile pyNonSpace l2
    if w == 0 then none else some (⟨l2.take w⟩, 6 + s1 + w)
  else none

/-- Match `(?:from\s+(\S+)\s+)?import\s+(\S+)` at the head of `l`, returning
`match.group(1) or match.group(2)` (the `module` the source records) and the
consumed length.  The optional group is tried first, as the engine does. -/
def matchImportAt (l : List Char) : Option (String × Nat) :=
  let fromVariant :=
    if charsHasPre "from".data l then
      let l1 := l.drop 4
      let s1 := munchWhile pySpace l1
      if s1 == 0 then none else
      let l2 := l1.drop s1
      let w := munchWhile pyNonSpace l2
      if w == 0 then none else
      let l3 := l2.drop w
      let s2 := munchWhile pySpace l3
      if s2 == 0 then none else
      match matchImportTail (l3.drop s2) with
      | some (_, k) => some ((⟨l2.take w⟩ : String), 4 + s1 + w + s2 + k)
      | none => none
    else none
  match fromVariant with
  | some r => some r
  | none => matchImportTail l

/-- `re.finditer` for an unanchored pattern: try each position left to right,
resume after the end of each match (advancing at least one character, as the
engine does past an empty match).  The `fuel` argument makes the recursion
structural; since every step drops at least one character, any `fuel` of at
least the list's length (as supplied by `pyFindDefs`/`pyFindClasses`) never
runs out, so the `fuel = 0` branch is unreachable on those calls. -/
def findAllAux (matchAt : List Char → Option (String × Nat)) : Nat → List Char → List String
  | 0, _ => []
  | _, [] => []
  | fuel + 1, c :: t =>
      match matchAt (c :: t) with
      | some (cap, k) => cap :: findAllAux matchAt fuel ((c :: t).drop (max k 1))
      | none => findAllAux matchAt fuel t

/-- `re.finditer` of the `def` pattern over the file content. -/
def pyFindDefs (content : String) : List String :=
  findAllAux matchDefAt content.data.length content.data

/-- `re.finditer` of the `class` pattern over the file content. -/
def pyFindClasses (content : String) : List String :=
  findAllAux matchClassAt content.data.length content.data

/-- `re.finditer` of the `^...import...` pattern with `re.MULTILINE`: matches
are attempted only at line starts; after a match the scan resumes past its
end, which is never a line start (every match of this pattern ends in a `\S`
character).  Fuel as in `findAllAux`. -/
def findImportsAux (atStart : Bool) : Nat → List Char → List String
  | 0, _ => []
  | _, [] => []
  | fuel + 1, c :: t =>
      if atStart then
        match matchImportAt (c :: t) with
        | some (m, k) => m :: findImportsAux false fuel ((c :: t).drop (max k 1))
        | none => findImportsAux (c == '\n') fuel t
      else findImportsAux (c == '\n') fuel t

def pyFindImports (content : String) : List String :=
  findImportsAux true content.data.length content.data

/-- `FeatureCategorizer._analyze_with_regex`: imports, then function
definitions, then class definitions, the latter two also categorized. -/
def analyze_with_regex (file_path content : String) : Features :=
  let importsFound := pyFindImports content
  let defsFound := pyFindDefs content
  let classesFound := pyFindClasses content
  let fbc1 := defsFound.foldl (fun m n =>
    addToCategory m (categorize_feature n)
      { name := n, ty := "function", line := none, args := none, methods := none }) []
  let fbc2 := classesFound.foldl (fun m n =>
    addToCategory m (categorize_feature n)
      { name := n, ty := "class", line := none, args := none, methods := none }) fbc1
  { file := file_path,
    functions := defsFound.map (fun n =>
      { name := n, ty := "function", line := none, args := none, methods := none }),
    classes := classesFound.map (fun n =>
      { name := n, ty := "class", line := none, args := none, methods := none }),
    imports := importsFound.map (fun m =>
      { module := m, asname := none, ty := "import" }),
    variables_ := [],
    features_by_category := fbc2,
    note := some "Regex-based analysis (file may be obfuscated)" }

/-- `FeatureCategorizer.analyze_python_file`.  The fallible read succeeded
(its content is the `content` argument); `parse_result` is `some tree` when
`ast.parse` succeeds and `none` when it raises `SyntaxError`, in which case
the source returns `self._analyze_with_regex(file_path, content)`. -/
def analyze_python_file (file_path content : String) (parse_result : Option PyNode) : Features :=
  match parse_result with
  | none => analyze_with_regex file_path content
  | some tree =>
      let f1 := (walk tree).foldl importPass (emptyFeatures file_path)
      (walk tree).foldl featurePass f1

/-! ## Markdown report sections

The report writers build one big string by `+=`; a section is embedded as the
list of appended chunks, whose concatenation is exactly the string the source
appends for that category (the two or three consecutive `+=` that build one
item line are merged into that item's single chunk). -/

/-- Python f-string interpolation: concatenation of the pieces. -/
def strCat (parts : List String) : String := ⟨(parts.map String.data).flatten⟩

/-- Python `str.title()` (ASCII behaviour): uppercase a letter after a
non-letter, lowercase one after a letter. -/
def pyTitle (s : String) : String := ⟨go s.data false⟩
where
  go : List Char → Bool → List Char
    | [], _ => []
    | c :: t, prevAlpha => (if prevAlpha then c.toLower else c.toUpper) :: go t c.isAlpha

/-- `category.replace('_', ' ')`. -/
def underscoresToSpaces (s : String) : String :=
  ⟨s.data.map (fun c => if c == '_' then ' ' else c)⟩

/-- The `"- ... and {K} more\n"` elision chunk, identical in shape in both
report writers. -/
def elisionChunk (k : Nat) : String := strCat ["- ... and ", toString k, " more\n"]

/-- One item line of `write_to_serena` (`sensai_feature_analysis.py`):
`"- **{name}** ({type})"`, an optional `" - Line {line}"` when the feature
dict has a `line` key, and the closing newline. -/
def sensaiItemChunk (f : SymbolRec) : String :=
  strCat ["- **", f.name, "** (", f.ty, ")",
          (match f.line with
           | some l => strCat [" - Line ", toString l]
           | none => ""), "\n"]

/-- The chunks `write_to_serena` appends for one category section (a category
with positive count whose feature list is `features`): header, the first ten
items, the elision line when more than ten, and the blank line. -/
def sensaiSectionChunks (category : String) (count : Nat) (features : List SymbolRec) :
    List String :=
  strCat ["### ", pyTitle (underscoresToSpaces category), " (", toString count, " features)\n\n"]
  :: ((features.take 10).map sensaiItemChunk
      ++ (if 10 < features.length then [elisionChunk (features.length - 10)] else [])
      ++ ["\n"])

/-- An entry of a `feature_categories` group in
`enhanced_sensai_analysis.py`: a dict (whose display name is
`item.get('name', item.get('module', item.get('dependency', 'unknown')))`)
or a plain string. -/
inductive EItem where
  | dict (name : Option String) (module : Option String) (dependency : Option String)
  | str (s : String)
deriving DecidableEq, Repr

def eItemName : EItem → String
  | .dict n m d => ((n.orElse fun _ => m).orElse fun _ => d).getD "unknown"
  | .str s => s

/-- One item line of `write_enhanced_to_serena`: `"- {name}\n"`. -/
def enhancedItemChunk (it : EItem) : String := strCat ["- ", eItemName it, "\n"]

/-- The chunks `write_enhanced_to_serena` appends for one category section:
header, the first five items, the elision line when more than five, and the
blank line. -/
def enhancedSectionChunks (category : String) (items : List EItem) : List String :=
  strCat ["### ", pyTitle (underscoresToSpaces category), " (", toString items.length,
          " items)\n\n"]
  :: ((items.take 5).map enhancedItemChunk
      ++ (if 5 < items.length then [elisionChunk (items.length - 5)] else [])
      ++ ["\n"])

/-! ## `analyze_kawaiigpt.py`: reference quads -/

/-- A reference record as read by `extract_quads_from_references`: the source
reads `ref.get('name', '')`, `ref.get('location', {}).get('file', '')` and
`ref.get('kind', '')`, so missing keys are already the empty string and the
fields are total. -/
structure RefRec where
  name : String
  file : String
  kind : String
deriving DecidableEq, Repr

/-- `extract_quads_from_references` from `analyze_kawaiigpt.py`: for each
reference whose name is truthy (and a truthy `source_symbol`), append the
`references` quad and the mirrored `referenced_by` quad. -/
def extract_quads_from_references (references : List RefRec) (source_symbol : String)
    (file_path : String) (context : String) : List Fact :=
  match references with
  | [] => []
  | ref :: rest =>
      (if ref.name ≠ "" ∧ source_symbol ≠ "" then
        [{ subject := source_symbol, predicate := "references", object := ref.name,
           graph := file_path ++ "->" ++ ref.file, context := context },
         { subject := ref.name, predicate := "referenced_by", object := source_symbol,
           graph := ref.file ++ "->" ++ file_path, context := context }]
      else [])
      ++ extract_quads_from_references rest source_symbol file_path context

/-! ## Helper lemmas -/

theorem charsHasPre_map (f : Char → Char) :
    ∀ kw l, charsHasPre kw l = true → charsHasPre (kw.map f) (l.map f) = true := by
  intro kw
  induction kw with
  | nil => intro l _; simp [charsHasPre]
  | cons a ka ih =>
      intro l h
      cases l with
      | nil => simp [charsHasPre] at h
      | cons b lb =>
          simp only [charsHasPre, Bool.and_eq_true, beq_iff_eq] at h
          simp only [List.map_cons, charsHasPre, Bool.and_eq_true, beq_iff_eq]
          exact ⟨by rw [h.1], ih lb h.2⟩

theorem occursIn_map (f : Char → Char) (kw : List Char) :
    ∀ l, occursIn kw l = true → occursIn (kw.map f) (l.map f) = true := by
  intro l
  induction l with
  | nil =>
      intro h
      simp only [occursIn, List.isEmpty_iff] at h
      simp [occursIn, h]
  | cons c t ih =>
      intro h
      simp only [occursIn, Bool.or_eq_true] at h ⊢
      rcases h with h | h
      · exact Or.inl (charsHasPre_map f kw (c :: t) h)
      · exact Or.inr (ih h)

/-- A substring whose characters are fixed by `Char.toLower` is still a
substring after `str.lower()`. -/
theorem substrOf_pyLower (kw s : String) (hkw : kw.data.map Char.toLower = kw.data)
    (h : substrOf kw s = true) : substrOf kw (pyLower s) = true := by
  have h2 := occursIn_map Char.toLower kw.data s.data h
  rw [hkw] at h2
  exact h2

theorem filter_map_nil {α β} (p : β → Bool) (g : α → β) (l : List α)
    (h : ∀ x, p (g x) = false) : (l.map g).filter p = [] := by
  induction l with
  | nil => rfl
  | cons a t ih => simp [List.filter_cons, h a, ih]

theorem filter_filterMap_nil {α β} (p : β → Bool) (g : α → Option β) (l : List α)
    (h : ∀ x y, g x = some y → p y = false) : (l.filterMap g).filter p = [] := by
  induction l with
  | nil => rfl
  | cons a t ih =>
      cases hg : g a with
      | none => simpa [List.filterMap_cons, hg] using ih
      | some y => simp [List.filterMap_cons, hg, List.filter_cons, h a y hg, ih]

/-! ## C1: the keyword categorizer -/

/-- **C1.**  `categorize_feature` returns exactly one label from the fixed
vocabulary, by first matching rule: any name containing both `"install"` and
`"config"` gets `"installation"` (the first rule), and a name matching no
rule gets `"utilities"`. -/
theorem c1_categorize_first_match (s t u : String)
    (h1 : substrOf "install" s = true) (_h2 : substrOf "config" s = true)
    (h3 : categorization_rules.all (fun r => !ruleMatches t r) = true) :
    categorize_feature s = "installation" ∧ categorize_feature t = "utilities" ∧
      categorize_feature u ∈ categoryLabels := by
  refine ⟨?_, ?_, ?_⟩
  · have hlow : substrOf "install" (pyLower s) = true :=
      substrOf_pyLower "install" s (by decide) h1
    have hmatch : ruleMatches s ("installation",
        ["install", "setup", "package", "dependencies"]) = true := by
      simp only [ruleMatches, List.any_eq_true]
      exact ⟨"install", by simp, hlow⟩
    rw [categorize_feature, categorization_rules, List.find?_cons_of_pos _ hmatch]
  · have hnone : categorization_rules.find? (ruleMatches t) = none := by
      rw [List.find?_eq_none]
      intro r hr
      have := (List.all_eq_true.mp h3) r hr
      simp only [Bool.not_eq_true'] at this
      simp [this]
    rw [categorize_feature, hnone]
  · rw [categorize_feature]
    cases hf : categorization_rules.find? (ruleMatches u) with
    | none => simp [categoryLabels]
    | some r =>
        have hmem := List.mem_of_find?_eq_some hf
        simp only [categoryLabels, List.mem_append]
        exact Or.inl (List.mem_map_of_mem Prod.fst hmem)

/-- Witness for C1 at concrete inputs. -/
theorem c1_categorize_first_match_witness :
    substrOf "install" "reinstall_config" = true ∧
    substrOf "config" "reinstall_config" = true ∧
    categorization_rules.all (fun r => !ruleMatches "zzz" r) = true ∧
    categorize_feature "reinstall_config" = "installation" ∧
    categorize_feature "zzz" = "utilities" ∧
    categorize_feature "detect_os" ∈ categoryLabels := by
  have h := c1_categorize_first_match "reinstall_config" "zzz" "detect_os"
    (by decide) (by decide) (by decide)
  exact ⟨by decide, by decide, by decide, h.1, h.2.1, h.2.2⟩

/-! ## C2: one `is_a:function` fact per function definition -/

/-- Is a fact an `is_a:function` fact? -/
def isFunctionFact (t : Fact) : Bool := t.predicate == "is_a" && t.object == "function"

/-- The name of a function definition node, `none` for any other node. -/
def functionDefName? : PyNode → Option String
  | .functionDef name _ _ _ _ => some name
  | _ => none

/-- Is a node a function definition? -/
def isFunctionDefNode (n : PyNode) : Bool := (functionDefName? n).isSome

theorem extract_filter_functionFact (n : PyNode) (fp : String) :
    ((extract_triples_from_ast n fp).filter isFunctionFact).map Fact.subject
      = (functionDefName? n).toList := by
  cases n with
  | functionDef name args decorators body ln =>
      rw [extract_triples_from_ast, List.filter_cons]
      rw [filter_map_nil isFunctionFact _ args ?_]
      · simp [functionDefName?, isFunctionFact]
      · intro a
        rfl
  | classDef name bases body ln =>
      rw [extract_triples_from_ast, List.filter_cons]
      rw [filter_filterMap_nil isFunctionFact _ bases ?_]
      · simp [functionDefName?, isFunctionFact]
      · intro x y hxy
        cases x <;> simp only [Option.some.injEq, reduceCtorEq] at hxy
        rw [← hxy]
        rfl
  | importStmt names =>
      rw [extract_triples_from_ast, filter_map_nil isFunctionFact _ names ?_]
      · rfl
      · intro al
        rfl
  | importFrom mod names =>
      cases mod with
      | some m =>
          rw [extract_triples_from_ast]
          rw [filter_map_nil isFunctionFact _ names ?_]
          · rfl
          · intro al
            rfl
      | none => rfl
  | assign targets value ln =>
      rw [extract_triples_from_ast, filter_filterMap_nil isFunctionFact _ targets ?_]
      · rfl
      · intro x y hxy
        cases x <;> simp only [Option.some.injEq, reduceCtorEq] at hxy
        rw [← hxy]
        rfl
  | callExpr func args =>
      cases func <;> rfl
  | module body => rfl
  | nameExpr id => rfl
  | attrExpr value attr => rfl
  | passStmt => rfl
  | otherNode children => rfl

theorem extractAll_filter_functionFact (nodes : List PyNode) (fp : String) :
    ((extractAll nodes fp).filter isFunctionFact).map Fact.subject
      = nodes.filterMap functionDefName? := by
  induction nodes with
  | nil => rfl
  | cons n t ih =>
      rw [extractAll, List.filter_append, List.map_append, extract_filter_functionFact n fp, ih,
        List.filterMap_cons]
      cases hn : functionDefName? n <;> simp [hn]

theorem length_filterMap_functionDefName (l : List PyNode) :
    (l.filterMap functionDefName?).length = l.countP isFunctionDefNode := by
  induction l with
  | nil => rfl
  | cons n t ih =>
      rw [List.filterMap_cons, List.countP_cons]
      cases hn : functionDefName? n <;>
        simp [isFunctionDefNode, hn, ih]

/-- **C2.**  For a successfully parsed file, the `is_a:function` facts are in
order-preserving bijection with the function definition nodes of the tree
(top-level and nested alike, as listed by `ast.walk`): their subjects are
exactly the function names, and their count equals the count of function
definition nodes. -/
theorem c2_function_fact_count (tree : PyNode) (file_path : String) :
    (((analyze_file (Except.ok tree) file_path).triples.filter isFunctionFact).map Fact.subject
        = (walk tree).filterMap functionDefName?) ∧
    ((analyze_file (Except.ok tree) file_path).triples.countP isFunctionFact
        = (walk tree).countP isFunctionDefNode) := by
  constructor
  · exact extractAll_filter_functionFact (walk tree) file_path
  · rw [analyze_file]
    rw [List.countP_eq_length_filter]
    have h := congrArg List.length (extractAll_filter_functionFact (walk tree) file_path)
    rw [List.length_map] at h
    rw [h, length_filterMap_functionDefName]

/-! ## C3: class facts and inheritance facts -/

/-- The identifier of a simple-name base expression. -/
def simpleBaseName? : PyNode → Option String
  | .nameExpr id => some id
  | _ => none

/-- **C3.**  A class definition yields exactly one `is_a:class` fact, and its
`inherits_from` facts list (in order) exactly the simple-identifier bases:
attribute-access or computed base expressions yield none. -/
theorem c3_class_inheritance_facts (name : String) (bases body : List PyNode) (ln : Nat)
    (fp : String) :
    ((extract_triples_from_ast (.classDef name bases body ln) fp).countP
        (fun t => t.predicate == "is_a" && t.object == "class") = 1) ∧
    (((extract_triples_from_ast (.classDef name bases body ln) fp).filter
        (fun t => t.predicate == "inherits_from")).map Fact.object
        = bases.filterMap simpleBaseName?) := by
  constructor
  · rw [extract_triples_from_ast, List.countP_cons, List.countP_eq_length_filter]
    rw [filter_filterMap_nil _ _ bases ?_]
    · rfl
    · intro x y hxy
      cases x <;> simp only [Option.some.injEq, reduceCtorEq] at hxy
      rw [← hxy]
      rfl
  · rw [extract_triples_from_ast, List.filter_cons]
    have hbases : ∀ l : List PyNode,
        ((l.filterMap (fun b =>
          match b with
          | PyNode.nameExpr id => some
              { subject := name, predicate := "inherits_from", object := id,
                context := fp, graph := "inheritance" : Fact }
          | _ => none)).filter (fun t => t.predicate == "inherits_from")).map Fact.object
          = l.filterMap simpleBaseName? := by
      intro l
      induction l with
      | nil => rfl
      | cons b t ih =>
          cases b
          all_goals simp [List.filterMap_cons, simpleBaseName?, List.filter_cons, ih]
    rw [show (({ subject := name, predicate := "is_a", object := "class", context := fp,
                 graph := "code_structure" } : Fact).predicate == "inherits_from")
        = false from rfl]
    simpa using hbases bases

/-! ## C4: quad conversion -/

/-- **C4 counterexample.**  The claim "every quad's `graph` field is a
non-empty string" fails for an input fact whose `graph` is the empty string:
`triple.get('graph', 'default')` returns the present (empty) value. -/
theorem c4_nonempty_graph_counterexample :
    ¬ (∀ q ∈ extract_quads_from_relationships
        [{ subject := "s", predicate := "p", object := "o", context := "c", graph := "" }]
        "f.py", q.graph ≠ "") := by
  decide

/-- **C4 (amended).**  Quad conversion yields exactly one quad per fact,
preserving `subject`, `predicate`, `object` (and copying `graph` and
`context`); the quads' graphs are non-empty whenever the input facts' graphs
are, which is the case for every fact `extract_triples_from_ast` emits. -/
theorem c4_quads_preserve_fields (triples : List Fact) (file_path : String) :
    ((extract_quads_from_relationships triples file_path).length = triples.length) ∧
    ((extract_quads_from_relationships triples file_path).map
        (fun q => (q.subject, q.predicate, q.object, q.graph, q.context))
      = triples.map (fun t => (t.subject, t.predicate, t.object, t.graph, t.context))) ∧
    ((∀ t ∈ triples, t.graph ≠ "") →
      ∀ q ∈ extract_quads_from_relationships triples file_path, q.graph ≠ "") ∧
    (∀ n fp, ∀ t ∈ extract_triples_from_ast n fp, t.graph ≠ "") := by
  refine ⟨by simp [extract_quads_from_relationships], ?_, ?_, ?_⟩
  · simp [extract_quads_from_relationships, List.map_map]
  · intro h q hq
    rw [extract_quads_from_relationships, List.mem_map] at hq
    obtain ⟨t, ht, rfl⟩ := hq
    exact h t ht
  · intro n fp t ht
    cases n with
    | functionDef name args decorators body ln =>
        rw [extract_triples_from_ast] at ht
        rcases List.mem_cons.mp ht with rfl | h
        · exact (by decide : ("code_structure" : String) ≠ "")
        · obtain ⟨a, _, rfl⟩ := List.mem_map.mp h
          exact (by decide : ("code_structure" : String) ≠ "")
    | classDef name bases body ln =>
        rw [extract_triples_from_ast] at ht
        rcases List.mem_cons.mp ht with rfl | h
        · exact (by decide : ("code_structure" : String) ≠ "")
        · obtain ⟨b, _, hb⟩ := List.mem_filterMap.mp h
          cases b <;> simp only [Option.some.injEq, reduceCtorEq] at hb
          rw [← hb]
          exact (by decide : ("inheritance" : String) ≠ "")
    | importStmt names =>
        rw [extract_triples_from_ast] at ht
        obtain ⟨a, _, rfl⟩ := List.mem_map.mp ht
        exact (by decide : ("dependencies" : String) ≠ "")
    | importFrom mod names =>
        cases mod with
        | some m =>
            rw [extract_triples_from_ast] at ht
            obtain ⟨a, _, rfl⟩ := List.mem_map.mp ht
            exact (by decide : ("dependencies" : String) ≠ "")
        | none => exact absurd (show t ∈ ([] : List Fact) from ht) (List.not_mem_nil t)
    | assign targets value ln =>
        rw [extract_triples_from_ast] at ht
        obtain ⟨x, _, hx⟩ := List.mem_filterMap.mp ht
        cases x <;> simp only [Option.some.injEq, reduceCtorEq] at hx
        rw [← hx]
        exact (by decide : ("code_structure" : String) ≠ "")
    | callExpr func args =>
        cases func with
        | nameExpr id =>
            have h2 : t ∈ ([{ subject := pyBasename fp, predicate := "calls", object := id,
                              context := fp, graph := "call_graph" }] : List Fact) := ht
            rcases List.mem_singleton.mp h2 with rfl
            exact (by decide : ("call_graph" : String) ≠ "")
        | module body => exact absurd (show t ∈ ([] : List Fact) from ht) (List.not_mem_nil t)
        | functionDef a b c d e =>
            exact absurd (show t ∈ ([] : List Fact) from ht) (List.not_mem_nil t)
        | classDef a b c d =>
            exact absurd (show t ∈ ([] : List Fact) from ht) (List.not_mem_nil t)
        | importStmt a => exact absurd (show t ∈ ([] : List Fact) from ht) (List.not_mem_nil t)
        | importFrom a b =>
            exact absurd (show t ∈ ([] : List Fact) from ht) (List.not_mem_nil t)
        | assign a b c => exact absurd (show t ∈ ([] : List Fact) from ht) (List.not_mem_nil t)
        | callExpr a b => exact absurd (show t ∈ ([] : List Fact) from ht) (List.not_mem_nil t)
        | attrExpr a b => exact absurd (show t ∈ ([] : List Fact) from ht) (List.not_mem_nil t)
        | passStmt => exact absurd (show t ∈ ([] : List Fact) from ht) (List.not_mem_nil t)
        | otherNode a => exact absurd (show t ∈ ([] : List Fact) from ht) (List.not_mem_nil t)
    | module body => exact absurd (show t ∈ ([] : List Fact) from ht) (List.not_mem_nil t)
    | nameExpr id => exact absurd (show t ∈ ([] : List Fact) from ht) (List.not_mem_nil t)
    | attrExpr value attr =>
        exact absurd (show t ∈ ([] : List Fact) from ht) (List.not_mem_nil t)
    | passStmt => exact absurd (show t ∈ ([] : List Fact) from ht) (List.not_mem_nil t)
    | otherNode children =>
        exact absurd (show t ∈ ([] : List Fact) from ht) (List.not_mem_nil t)

/-- Witness for C4 (amended) at a concrete fact list. -/
theorem c4_quads_preserve_fields_witness :
    (∀ t ∈ [{ subject := "A", predicate := "is_a", object := "class",
              context := "k.py", graph := "code_structure" : Fact }], t.graph ≠ "") ∧
    (∀ q ∈ extract_quads_from_relationships
        [{ subject := "A", predicate := "is_a", object := "class",
           context := "k.py", graph := "code_structure" }] "k.py", q.graph ≠ "") :=
  ⟨by decide, (c4_quads_preserve_fields
      [{ subject := "A", predicate := "is_a", object := "class",
         context := "k.py", graph := "code_structure" }] "k.py").2.2.1 (by decide)⟩

/-! ## C5: the `def foo(a, b): pass` scenario -/

/-- The parse tree of a file whose entire content is `def foo(a, b): pass`. -/
def fooTree : PyNode := .module [.functionDef "foo" ["a", "b"] [] [.passStmt] 1]

/-- **C5.**  Analyzing the file `def foo(a, b): pass` yields exactly the three
facts `(foo, is_a, function)`, `(foo, has_parameter, a)`,
`(foo, has_parameter, b)`. -/
theorem c5_foo_scenario :
    ((analyze_file (Except.ok fooTree) "test.py").triples.map
        (fun t => (t.subject, t.predicate, t.object))
      = [("foo", "is_a", "function"), ("foo", "has_parameter", "a"),
         ("foo", "has_parameter", "b")]) ∧
    ((analyze_file (Except.ok fooTree) "test.py").triples
      = [{ subject := "foo", predicate := "is_a", object := "function",
           context := "test.py", graph := "code_structure" },
         { subject := "foo", predicate := "has_parameter", object := "a",
           context := "test.py", graph := "code_structure" },
         { subject := "foo", predicate := "has_parameter", object := "b",
           context := "test.py", graph := "code_structure" }]) := by
  constructor <;> rfl

/-! ## C6: the regex fallback on unparsable files -/

/-- **C6.**  When parsing fails, `analyze_python_file` returns (rather than
raising) the regex-derived record: it is never the empty default record, it
carries the `note` flag marking it regex-derived, and its functions, classes
and imports are exactly the regex scans of the content. -/
theorem c6_regex_fallback (file_path content : String) :
    (analyze_python_file file_path content none = analyze_with_regex file_path content) ∧
    (analyze_python_file file_path content none ≠ emptyFeatures file_path) ∧
    ((analyze_python_file file_path content none).note
        = some "Regex-based analysis (file may be obfuscated)") ∧
    ((analyze_python_file file_path content none).functions.map SymbolRec.name
        = pyFindDefs content) ∧
    ((analyze_python_file file_path content none).classes.map SymbolRec.name
        = pyFindClasses content) ∧
    ((analyze_python_file file_path content none).imports.map ImportRec.module
        = pyFindImports content) := by
  refine ⟨rfl, ?_, rfl, ?_, ?_, ?_⟩
  · intro h
    have h2 := congrArg Features.note h
    simp [analyze_python_file, analyze_with_regex, emptyFeatures] at h2
  · show (analyze_with_regex file_path content).functions.map SymbolRec.name = pyFindDefs content
    rw [analyze_with_regex]
    simp only [List.map_map]
    exact List.map_id' _
  · show (analyze_with_regex file_path content).classes.map SymbolRec.name = pyFindClasses content
    rw [analyze_with_regex]
    simp only [List.map_map]
    exact List.map_id' _
  · show (analyze_with_regex file_path content).imports.map ImportRec.module
        = pyFindImports content
    rw [analyze_with_regex]
    simp only [List.map_map]
    exact List.map_id' _

/-! ## C7: per-file errors do not halt the run -/

/-- **C7.**  A file whose read-or-parse raises yields a record with the error
message and empty triple/quad lists; the driver loop still processes every
existing file, in order, and a failing file contributes a zero-count entry
while the remaining files are processed exactly as they would be alone. -/
theorem c7_errors_do_not_halt :
    (∀ file_path e, analyze_file (Except.error e) file_path
        = { file := file_path, error := some e, triples := [], quads := [] }) ∧
    (∀ files, (runExtraction files).files_analyzed.map FileEntry.file
        = files.filterMap (fun p => if p.2.isSome then some p.1 else none)) ∧
    (∀ file_path e rest, runExtraction ((file_path, some (Except.error e)) :: rest)
        = { triples := (runExtraction rest).triples,
            quads := (runExtraction rest).quads,
            files_analyzed := { file := file_path, triple_count := 0, quad_count := 0 }
              :: (runExtraction rest).files_analyzed }) := by
  refine ⟨fun _ _ => rfl, ?_, fun _ _ _ => rfl⟩
  intro files
  induction files with
  | nil => rfl
  | cons p rest ih =>
      obtain ⟨fp, oc⟩ := p
      cases oc with
      | none => simpa [runExtraction] using ih
      | some outcome => simpa [runExtraction] using ih

/-! ## C10: reference quads come in mirrored pairs -/

/-- **C10.**  `extract_quads_from_references` output always has even length;
with a non-empty source symbol it emits exactly one pair per reference with a
non-empty name; and every `references` quad has a mirrored `referenced_by`
quad with subject/object swapped and the graph arrow reversed. -/
theorem c10_reference_quads (references : List RefRec)
    (source_symbol file_path context : String) :
    (Even (extract_quads_from_references references source_symbol file_path context).length) ∧
    (source_symbol ≠ "" →
      (extract_quads_from_references references source_symbol file_path context).length
        = 2 * references.countP (fun r => r.name != "")) ∧
    (∀ q ∈ extract_quads_from_references references source_symbol file_path context,
      q.predicate = "references" →
      ∃ q' ∈ extract_quads_from_references references source_symbol file_path context,
        q'.predicate = "referenced_by" ∧ q'.subject = q.object ∧ q'.object = q.subject ∧
        q'.context = q.context ∧
        ∃ rf, q.graph = file_path ++ "->" ++ rf ∧ q'.graph = rf ++ "->" ++ file_path) := by
  refine ⟨?_, ?_, ?_⟩
  · induction references with
    | nil => exact ⟨0, rfl⟩
    | cons ref rest ih =>
        rw [extract_quads_from_references, List.length_append]
        by_cases hc : ref.name ≠ "" ∧ source_symbol ≠ ""
        · rw [if_pos hc]
          obtain ⟨k, hk⟩ := ih
          exact ⟨k + 1, by simp [hk]; omega⟩
        · rw [if_neg hc]
          simpa using ih
  · intro hs
    induction references with
    | nil => rfl
    | cons ref rest ih =>
        rw [extract_quads_from_references, List.length_append, List.countP_cons, ih]
        by_cases hn : ref.name = ""
        · rw [if_neg (by simp [hn]), hn]
          simp
        · rw [if_pos ⟨hn, hs⟩]
          simp only [bne_iff_ne, ne_eq, hn, not_false_eq_true, if_pos]
          simp [Nat.mul_add]
          omega
  · induction references with
    | nil => intro q hq; exact absurd hq (List.not_mem_nil q)
    | cons ref rest ih =>
        intro q hq hpred
        rw [extract_quads_from_references] at hq
        rcases List.mem_append.mp hq with hhead | htail
        · by_cases hc : ref.name ≠ "" ∧ source_symbol ≠ ""
          · rw [if_pos hc] at hhead
            rcases List.mem_cons.mp hhead with rfl | h2
            · refine ⟨{ subject := ref.name, predicate := "referenced_by",
                        object := source_symbol, graph := ref.file ++ "->" ++ file_path,
                        context := context }, ?_, rfl, rfl, rfl, rfl, ref.file, rfl, rfl⟩
              rw [extract_quads_from_references, if_pos hc]
              exact List.mem_append_left _ (by simp)
            · rcases List.mem_singleton.mp h2 with rfl
              exact absurd hpred (show ¬ ("referenced_by" : String) = "references" by decide)
          · rw [if_neg hc] at hhead
            exact absurd hhead (List.not_mem_nil q)
        · obtain ⟨q', hq', hrest⟩ := ih q htail hpred
          refine ⟨q', ?_, hrest⟩
          rw [extract_quads_from_references]
          exact List.mem_append_right _ hq'

/-- Witness for C10 at a concrete reference list. -/
theorem c10_reference_quads_witness :
    ("main" : String) ≠ "" ∧
    ((extract_quads_from_references
        [{ name := "helper", file := "util.py", kind := "function" },
         { name := "", file := "x.py", kind := "" }] "main" "kawai.py" "refs").length
      = 2 * ([{ name := "helper", file := "util.py", kind := "function" },
              { name := "", file := "x.py", kind := "" }] : List RefRec).countP
          (fun r => r.name != "")) ∧
    (∃ q' ∈ extract_quads_from_references
        [{ name := "helper", file := "util.py", kind := "function" },
         { name := "", file := "x.py", kind := "" }] "main" "kawai.py" "refs",
      q'.predicate = "referenced_by" ∧ q'.subject = "helper" ∧ q'.object = "main" ∧
      q'.context = "refs" ∧
      ∃ rf, ("kawai.py->util.py" : String) = "kawai.py" ++ "->" ++ rf ∧
        q'.graph = rf ++ "->" ++ "kawai.py") := by
  have h := c10_reference_quads
    [{ name := "helper", file := "util.py", kind := "function" },
     { name := "", file := "x.py", kind := "" }] "main" "kawai.py" "refs"
  refine ⟨by decide, h.2.1 (by decide), ?_⟩
  have h3 := h.2.2 { subject := "main", predicate := "references", object := "helper",
                     graph := "kawai.py->util.py", context := "refs" } (by decide) rfl
  obtain ⟨q', hmem, hp, hs, ho, hc, rf, hg1, hg2⟩ := h3
  exact ⟨q', hmem, hp, hs, ho, hc, rf, hg1, hg2⟩

/-! ## C9: variable recording and categorization -/

theorem lookupCat_addToCategory (m : List (String × List SymbolRec)) (cat : String)
    (item : SymbolRec) (c : String) :
    lookupCat (addToCategory m cat item) c
      = if c = cat then lookupCat m cat ++ [item] else lookupCat m c := by
  induction m with
  | nil =>
      by_cases hc : c = cat
      · subst hc
        simp [addToCategory, lookupCat]
      · simp [addToCategory, lookupCat, hc, Ne.symm hc]
  | cons kv rest ih =>
      obtain ⟨k, v⟩ := kv
      by_cases hk : k = cat
      · subst hk
        by_cases hc : c = k
        · subst hc
          simp [addToCategory, lookupCat]
        · simp [addToCategory, lookupCat, hc, Ne.symm hc]
      · by_cases hc : c = cat
        · subst hc
          have hkc : ¬ k = c := hk
          simp [addToCategory, lookupCat, hk, hkc, ih]
        · by_cases hkc : k = c
          · subst hkc
            simp [addToCategory, lookupCat, hk, ih, hc]
          · simp [addToCategory, lookupCat, hk, hkc, ih, hc]

theorem mem_lookupCat_addToCategory (m : List (String × List SymbolRec)) (cat : String)
    (item : SymbolRec) (c : String) (x : SymbolRec) :
    x ∈ lookupCat (addToCategory m cat item) c
      ↔ x ∈ lookupCat m c ∨ (c = cat ∧ x = item) := by
  rw [lookupCat_addToCategory]
  by_cases hc : c = cat
  · subst hc
    simp
  · simp [hc]

theorem importPass_preserves (st : Features) (n : PyNode) :
    (importPass st n).features_by_category = st.features_by_category ∧
    (importPass st n).variables_ = st.variables_ := by
  cases n <;> exact ⟨rfl, rfl⟩

theorem foldl_importPass_preserves (l : List PyNode) (st : Features) :
    (l.foldl importPass st).features_by_category = st.features_by_category ∧
    (l.foldl importPass st).variables_ = st.variables_ := by
  induction l generalizing st with
  | nil => exact ⟨rfl, rfl⟩
  | cons n t ih =>
      rw [List.foldl_cons]
      exact ⟨(ih _).1.trans (importPass_preserves st n).1,
             (ih _).2.trans (importPass_preserves st n).2⟩

/-- The soundness invariant behind C9: every variable-typed item sitting in a
category bucket passed both guards. -/
def bucketInv (st : Features) : Prop :=
  ∀ c x, x ∈ lookupCat st.features_by_category c → x.ty = "variable" →
    3 < x.name.length ∧ categorize_feature x.name ≠ "utilities"

theorem assignTargetStep_variables (ln : Nat) (st : Features) (id : String) :
    (assignTargetStep ln st (.nameExpr id)).variables_
      = st.variables_ ++ [varRecOf id ln] := by
  by_cases h1 : 3 < id.length
  · by_cases h2 : categorize_feature id = "utilities"
    · simp [assignTargetStep, h1, h2]
    · simp [assignTargetStep, h1, h2]
  · simp [assignTargetStep, h1]

theorem assignTargetStep_fbc (ln : Nat) (st : Features) (id : String) :
    (assignTargetStep ln st (.nameExpr id)).features_by_category
      = if 3 < id.length ∧ categorize_feature id ≠ "utilities" then
          addToCategory st.features_by_category (categorize_feature id) (varRecOf id ln)
        else st.features_by_category := by
  by_cases h1 : 3 < id.length
  · by_cases h2 : categorize_feature id = "utilities"
    · simp [assignTargetStep, h1, h2]
    · simp [assignTargetStep, h1, h2]
  · simp [assignTargetStep, h1]

theorem assignTargetStep_bucketInv (ln : Nat) (st : Features) (t : PyNode)
    (h : bucketInv st) : bucketInv (assignTargetStep ln st t) := by
  cases t with
  | nameExpr id =>
      intro c x hx hty
      rw [show (assignTargetStep ln st (.nameExpr id)).features_by_category
            = _ from assignTargetStep_fbc ln st id] at hx
      by_cases hcond : 3 < id.length ∧ categorize_feature id ≠ "utilities"
      · rw [if_pos hcond] at hx
        rcases (mem_lookupCat_addToCategory _ _ _ _ _).mp hx with hold | ⟨_, rfl⟩
        · exact h c x hold hty
        · exact hcond
      · rw [if_neg hcond] at hx
        exact h c x hx hty
  | module b => exact h
  | functionDef a b c d e => exact h
  | classDef a b c d => exact h
  | importStmt a => exact h
  | importFrom a b => exact h
  | assign a b c => exact h
  | callExpr a b => exact h
  | attrExpr a b => exact h
  | passStmt => exact h
  | otherNode a => exact h

theorem featurePass_bucketInv (st : Features) (n : PyNode)
    (h : bucketInv st) : bucketInv (featurePass st n) := by
  cases n with
  | functionDef name args decorators body ln =>
      intro c x hx hty
      rcases (mem_lookupCat_addToCategory _ _ _ _ _).mp hx with hold | ⟨_, rfl⟩
      · exact h c x hold hty
      · exact absurd hty (by decide : ¬ ("function" : String) = "variable")
  | classDef name bases body ln =>
      intro c x hx hty
      rcases (mem_lookupCat_addToCategory _ _ _ _ _).mp hx with hold | ⟨_, rfl⟩
      · exact h c x hold hty
      · exact absurd hty (by decide : ¬ ("class" : String) = "variable")
  | assign targets value ln =>
      have haux : ∀ (ts : List PyNode) (st2 : Features), bucketInv st2 →
          bucketInv (ts.foldl (assignTargetStep ln) st2) := by
        intro ts
        induction ts with
        | nil => intro st2 h2; exact h2
        | cons t2 ts2 ih =>
            intro st2 h2
            exact ih _ (assignTargetStep_bucketInv ln st2 t2 h2)
      exact haux targets st h
  | module b => exact h
  | importStmt a => exact h
  | importFrom a b => exact h
  | callExpr a b => exact h
  | nameExpr a => exact h
  | attrExpr a b => exact h
  | passStmt => exact h
  | otherNode a => exact h

theorem foldl_featurePass_bucketInv (l : List PyNode) (st : Features)
    (h : bucketInv st) : bucketInv (l.foldl featurePass st) := by
  induction l generalizing st with
  | nil => exact h
  | cons n t ih => exact ih _ (featurePass_bucketInv st n h)

theorem assignTargetStep_mono (ln : Nat) (st : Features) (t : PyNode) :
    (∀ x, x ∈ st.variables_ → x ∈ (assignTargetStep ln st t).variables_) ∧
    (∀ c x, x ∈ lookupCat st.features_by_category c →
      x ∈ lookupCat (assignTargetStep ln st t).features_by_category c) := by
  cases t with
  | nameExpr id =>
      constructor
      · intro x hx
        rw [assignTargetStep_variables]
        exact List.mem_append_left _ hx
      · intro c x hx
        rw [show (assignTargetStep ln st (.nameExpr id)).features_by_category
              = _ from assignTargetStep_fbc ln st id]
        by_cases hcond : 3 < id.length ∧ categorize_feature id ≠ "utilities"
        · rw [if_pos hcond]
          exact (mem_lookupCat_addToCategory _ _ _ _ _).mpr (Or.inl hx)
        · rw [if_neg hcond]
          exact hx
  | module b => exact ⟨fun x hx => hx, fun c x hx => hx⟩
  | functionDef a b c d e => exact ⟨fun x hx => hx, fun c x hx => hx⟩
  | classDef a b c d => exact ⟨fun x hx => hx, fun c x hx => hx⟩
  | importStmt a => exact ⟨fun x hx => hx, fun c x hx => hx⟩
  | importFrom a b => exact ⟨fun x hx => hx, fun c x hx => hx⟩
  | assign a b c => exact ⟨fun x hx => hx, fun c x hx => hx⟩
  | callExpr a b => exact ⟨fun x hx => hx, fun c x hx => hx⟩
  | attrExpr a b => exact ⟨fun x hx => hx, fun c x hx => hx⟩
  | passStmt => exact ⟨fun x hx => hx, fun c x hx => hx⟩
  | otherNode a => exact ⟨fun x hx => hx, fun c x hx => hx⟩

theorem foldl_assignTargetStep_mono (ln : Nat) (ts : List PyNode) (st : Features) :
    (∀ x, x ∈ st.variables_ → x ∈ (ts.foldl (assignTargetStep ln) st).variables_) ∧
    (∀ c x, x ∈ lookupCat st.features_by_category c →
      x ∈ lookupCat (ts.foldl (assignTargetStep ln) st).features_by_category c) := by
  induction ts generalizing st with
  | nil => exact ⟨fun x hx => hx, fun c x hx => hx⟩
  | cons t ts2 ih =>
      refine ⟨fun x hx => ?_, fun c x hx => ?_⟩
      · exact (ih _).1 x ((assignTargetStep_mono ln st t).1 x hx)
      · exact (ih _).2 c x ((assignTargetStep_mono ln st t).2 c x hx)

theorem featurePass_mono (st : Features) (n : PyNode) :
    (∀ x, x ∈ st.variables_ → x ∈ (featurePass st n).variables_) ∧
    (∀ c x, x ∈ lookupCat st.features_by_category c →
      x ∈ lookupCat (featurePass st n).features_by_category c) := by
  cases n with
  | functionDef name args decorators body ln =>
      exact ⟨fun x hx => hx,
        fun c x hx => (mem_lookupCat_addToCategory _ _ _ _ _).mpr (Or.inl hx)⟩
  | classDef name bases body ln =>
      exact ⟨fun x hx => hx,
        fun c x hx => (mem_lookupCat_addToCategory _ _ _ _ _).mpr (Or.inl hx)⟩
  | assign targets value ln => exact foldl_assignTargetStep_mono ln targets st
  | module b => exact ⟨fun x hx => hx, fun c x hx => hx⟩
  | importStmt a => exact ⟨fun x hx => hx, fun c x hx => hx⟩
  | importFrom a b => exact ⟨fun x hx => hx, fun c x hx => hx⟩
  | callExpr a b => exact ⟨fun x hx => hx, fun c x hx => hx⟩
  | nameExpr a => exact ⟨fun x hx => hx, fun c x hx => hx⟩
  | attrExpr a b => exact ⟨fun x hx => hx, fun c x hx => hx⟩
  | passStmt => exact ⟨fun x hx => hx, fun c x hx => hx⟩
  | otherNode a => exact ⟨fun x hx => hx, fun c x hx => hx⟩

theorem foldl_featurePass_mono (l : List PyNode) (st : Features) :
    (∀ x, x ∈ st.variables_ → x ∈ (l.foldl featurePass st).variables_) ∧
    (∀ c x, x ∈ lookupCat st.features_by_category c →
      x ∈ lookupCat (l.foldl featurePass st).features_by_category c) := by
  induction l generalizing st with
  | nil => exact ⟨fun x hx => hx, fun c x hx => hx⟩
  | cons n ns ih =>
      refine ⟨fun x hx => ?_, fun c x hx => ?_⟩
      · exact (ih _).1 x ((featurePass_mono st n).1 x hx)
      · exact (ih _).2 c x ((featurePass_mono st n).2 c x hx)

theorem assignTargets_fold_adds (ln : Nat) (id : String) :
    ∀ (targets : List PyNode) (st : Features), PyNode.nameExpr id ∈ targets →
      varRecOf id ln ∈ (targets.foldl (assignTargetStep ln) st).variables_ ∧
      (3 < id.length → categorize_feature id ≠ "utilities" →
        varRecOf id ln ∈ lookupCat
          (targets.foldl (assignTargetStep ln) st).features_by_category
          (categorize_feature id)) := by
  intro targets
  induction targets with
  | nil => intro st h; cases h
  | cons t ts ih =>
      intro st hmem
      rcases List.mem_cons.mp hmem with rfl | hmem'
      · constructor
        · apply (foldl_assignTargetStep_mono ln ts _).1
          rw [assignTargetStep_variables]
          exact List.mem_append_right _ (List.mem_singleton_self _)
        · intro h1 h2
          apply (foldl_assignTargetStep_mono ln ts _).2
          rw [show (assignTargetStep ln st (.nameExpr id)).features_by_category
                = _ from assignTargetStep_fbc ln st id]
          rw [if_pos ⟨h1, h2⟩]
          exact (mem_lookupCat_addToCategory _ _ _ _ _).mpr (Or.inr ⟨rfl, rfl⟩)
      · exact ih (assignTargetStep ln st t) hmem'

theorem foldl_featurePass_adds (ln : Nat) (id : String) (targets : List PyNode)
    (value : PyNode) :
    ∀ (l : List PyNode) (st : Features), PyNode.assign targets value ln ∈ l →
      PyNode.nameExpr id ∈ targets →
      varRecOf id ln ∈ (l.foldl featurePass st).variables_ ∧
      (3 < id.length → categorize_feature id ≠ "utilities" →
        varRecOf id ln ∈ lookupCat (l.foldl featurePass st).features_by_category
          (categorize_feature id)) := by
  intro l
  induction l with
  | nil => intro st h; cases h
  | cons n ns ih =>
      intro st hmem ht
      rcases List.mem_cons.mp hmem with rfl | hmem'
      · have hadd := assignTargets_fold_adds ln id targets st ht
        constructor
        · exact (foldl_featurePass_mono ns _).1 _ hadd.1
        · intro h1 h2
          exact (foldl_featurePass_mono ns _).2 _ _ (hadd.2 h1 h2)
      · exact ih (featurePass st n) hmem' ht

/-- **C9.**  For every assignment with a bare-name target, the variable is
recorded in the `variables` list; it lands in the per-file
`features_by_category` bucket of its category exactly under the two guards
(name longer than three characters, category not `"utilities"`), and every
variable-typed item found in any bucket passed both guards. -/
theorem c9_variable_categorization (file_path content : String) (tree : PyNode)
    (targets : List PyNode) (value : PyNode) (ln : Nat) (id : String)
    (hmem : PyNode.assign targets value ln ∈ walk tree)
    (htarget : PyNode.nameExpr id ∈ targets) :
    (varRecOf id ln ∈ (analyze_python_file file_path content (some tree)).variables_) ∧
    (3 < id.length → categorize_feature id ≠ "utilities" →
      varRecOf id ln ∈ lookupCat
        (analyze_python_file file_path content (some tree)).features_by_category
        (categorize_feature id)) ∧
    (∀ c x, x ∈ lookupCat
        (analyze_python_file file_path content (some tree)).features_by_category c →
      x.ty = "variable" → 3 < x.name.length ∧ categorize_feature x.name ≠ "utilities") := by
  have hadds := foldl_featurePass_adds ln id targets value (walk tree)
    ((walk tree).foldl importPass (emptyFeatures file_path)) hmem htarget
  refine ⟨hadds.1, hadds.2, ?_⟩
  apply foldl_featurePass_bucketInv
  intro c x hx
  rw [(foldl_importPass_preserves (walk tree) (emptyFeatures file_path)).1] at hx
  exact absurd hx (List.not_mem_nil x)

/-- Witness for C9 on a one-assignment module. -/
theorem c9_variable_categorization_witness :
    (PyNode.assign [PyNode.nameExpr "api_url"] (PyNode.otherNode []) 3
        ∈ walk (PyNode.module
            [PyNode.assign [PyNode.nameExpr "api_url"] (PyNode.otherNode []) 3])) ∧
    (PyNode.nameExpr "api_url" ∈ [PyNode.nameExpr "api_url"]) ∧
    3 < ("api_url" : String).length ∧
    categorize_feature "api_url" ≠ "utilities" ∧
    (varRecOf "api_url" 3 ∈ (analyze_python_file "kawai.py" ""
        (some (PyNode.module
          [PyNode.assign [PyNode.nameExpr "api_url"] (PyNode.otherNode []) 3]))).variables_) ∧
    (varRecOf "api_url" 3 ∈ lookupCat (analyze_python_file "kawai.py" ""
        (some (PyNode.module
          [PyNode.assign [PyNode.nameExpr "api_url"] (PyNode.otherNode []) 3]))).features_by_category
        (categorize_feature "api_url")) := by
  have hmem : PyNode.assign [PyNode.nameExpr "api_url"] (PyNode.otherNode []) 3
      ∈ walk (PyNode.module
          [PyNode.assign [PyNode.nameExpr "api_url"] (PyNode.otherNode []) 3]) :=
    List.Mem.tail _ (List.Mem.head _)
  have htarget : PyNode.nameExpr "api_url" ∈ [PyNode.nameExpr "api_url"] :=
    List.Mem.head _
  have h := c9_variable_categorization "kawai.py" "" _ _ _ 3 "api_url" hmem htarget
  exact ⟨hmem, htarget, by decide, by decide, h.1, h.2.1 (by decide) (by decide)⟩

/-! ## C8: report-section truncation and elision -/

theorem strCat_cons_data (p : String) (ps : List String) :
    (strCat (p :: ps)).data = p.data ++ (strCat ps).data := rfl

theorem strCat_head_get (p : String) (ps : List String) (i : Nat) (h : i < p.data.length) :
    (strCat (p :: ps)).data[i]? = p.data[i]? := by
  rw [strCat_cons_data, List.getElem?_append]
  rw [if_pos h]

theorem sensaiItemChunk_get2 (f : SymbolRec) :
    (sensaiItemChunk f).data[2]? = some '*' := by
  rw [sensaiItemChunk, strCat_head_get _ _ 2 (by decide)]
  rfl

theorem elisionChunk_get2 (k : Nat) : (elisionChunk k).data[2]? = some '.' := by
  rw [elisionChunk, strCat_head_get _ _ 2 (by decide)]
  rfl

theorem elisionChunk_get0 (k : Nat) : (elisionChunk k).data[0]? = some '-' := by
  rw [elisionChunk, strCat_head_get _ _ 0 (by decide)]
  rfl

theorem sensaiItemChunk_ne_elisionChunk (f : SymbolRec) (k : Nat) :
    sensaiItemChunk f ≠ elisionChunk k := by
  intro h
  have h2 : (sensaiItemChunk f).data[2]? = (elisionChunk k).data[2]? := by rw [h]
  rw [sensaiItemChunk_get2, elisionChunk_get2] at h2
  exact absurd h2 (by decide)

/-- An enhanced item line whose display name does not begin with `'.'` can
never coincide with an elision line. -/
theorem enhancedItemChunk_ne_elision_of_head (it : EItem)
    (h : (eItemName it).data[0]? ≠ some '.') (j : Nat) :
    enhancedItemChunk it ≠ elisionChunk j := by
  intro he
  have h2 : (enhancedItemChunk it).data[2]? = (elisionChunk j).data[2]? := by rw [he]
  rw [elisionChunk_get2] at h2
  rw [show enhancedItemChunk it = strCat ["- ", eItemName it, "\n"] from rfl,
    strCat_cons_data] at h2
  rw [List.getElem?_append_right (by decide : ("- " : String).data.length ≤ 2)] at h2
  rw [show (2 : Nat) - ("- " : String).data.length = 0 from rfl, strCat_cons_data] at h2
  cases hname : (eItemName it).data with
  | nil =>
      rw [hname] at h2
      exact absurd h2 (by decide)
  | cons c cs =>
      rw [hname] at h2
      simp only [List.cons_append, List.getElem?_cons_zero] at h2
      apply h
      rw [hname]
      simpa using h2

/-- Chunks whose third character is `'*'`: exactly the `write_to_serena`
item lines. -/
def isStarChunk (s : String) : Bool := s.data[2]? == some '*'

/-- Chunks starting with `'-'`: item lines and elision lines. -/
def isDashChunk (s : String) : Bool := s.data[0]? == some '-'

theorem filter_map_all {α β} (p : β → Bool) (g : α → β) (l : List α)
    (h : ∀ x, p (g x) = true) : (l.map g).filter p = l.map g := by
  induction l with
  | nil => rfl
  | cons a t ih => simp [List.filter_cons, h a, ih]

theorem countP_map_all {α β} (p : β → Bool) (g : α → β) (l : List α)
    (h : ∀ x, p (g x) = true) : (l.map g).countP p = l.length := by
  rw [List.countP_eq_length_filter, filter_map_all p g l h, List.length_map]

/-- **C8 counterexample.**  In the enhanced report (N = 5), a group of a
single item whose name reads `"... and 0 more"` produces a section containing
an elision-shaped line even though the group has at most five items, so the
claimed "if and only if" fails as stated. -/
theorem c8_elision_iff_counterexample :
    elisionChunk 0 ∈ enhancedSectionChunks "misc" [EItem.str "... and 0 more"] ∧
    ¬ (5 < ([EItem.str "... and 0 more"] : List EItem).length) := by
  constructor
  · have heq : elisionChunk 0 = enhancedItemChunk (EItem.str "... and 0 more") := by decide
    rw [heq, enhancedSectionChunks]
    exact List.Mem.tail _ (List.Mem.head _)
  · decide

theorem sensai_header_get0 (category : String) (count : Nat) :
    (strCat ["### ", pyTitle (underscoresToSpaces category), " (", toString count,
             " features)\n\n"]).data[0]? = some '#' := by
  rw [strCat_head_get _ _ 0 (by decide)]
  rfl

theorem enhanced_header_get0 (category : String) (n : Nat) :
    (strCat ["### ", pyTitle (underscoresToSpaces category), " (", toString n,
             " items)\n\n"]).data[0]? = some '#' := by
  rw [strCat_head_get _ _ 0 (by decide)]
  rfl

/-- **C8 (amended).**  Each rendered category section shows at most the first
N items of its group (N = 10 in `write_to_serena`, 5 in
`write_enhanced_to_serena`) and contains the `"... and K more"` elision line,
with K the group size minus N, exactly when the group has more than N items —
unconditionally for the N = 10 report, whose bold item lines can never read
like an elision line, and for the N = 5 report provided no item's rendered
name itself reads `"... and j more"`. -/
theorem c8_section_truncation (categoryF categoryE : String) (count : Nat)
    (features : List SymbolRec) (items : List EItem) (k : Nat)
    (hnoalias : ∀ it ∈ items, ∀ j, enhancedItemChunk it ≠ elisionChunk j) :
    ((sensaiSectionChunks categoryF count features).filter isStarChunk
        = (features.take 10).map sensaiItemChunk) ∧
    (elisionChunk k ∈ sensaiSectionChunks categoryF count features
        ↔ 10 < features.length ∧ elisionChunk k = elisionChunk (features.length - 10)) ∧
    ((enhancedSectionChunks categoryE items).countP isDashChunk
        = min items.length 5 + (if 5 < items.length then 1 else 0)) ∧
    (elisionChunk k ∈ enhancedSectionChunks categoryE items
        ↔ 5 < items.length ∧ elisionChunk k = elisionChunk (items.length - 5)) := by
  refine ⟨?_, ?_, ?_, ?_⟩
  · rw [sensaiSectionChunks, List.filter_cons]
    rw [show isStarChunk (strCat ["### ", pyTitle (underscoresToSpaces categoryF), " (",
          toString count, " features)\n\n"]) = false from by
        rw [isStarChunk, strCat_head_get _ _ 2 (by decide)]; rfl]
    rw [List.filter_append, List.filter_append]
    rw [filter_map_all isStarChunk sensaiItemChunk _ (fun f => by
      rw [isStarChunk, sensaiItemChunk_get2]; rfl)]
    rw [show (["\n"] : List String).filter isStarChunk = [] from rfl]
    by_cases hlen : 10 < features.length
    · rw [if_pos hlen]
      rw [show ([elisionChunk (features.length - 10)]).filter isStarChunk = [] from by
        rw [List.filter_cons, show isStarChunk (elisionChunk (features.length - 10))
              = false from by rw [isStarChunk, elisionChunk_get2]; rfl]
        rfl]
      simp
    · rw [if_neg hlen]
      simp
  · rw [sensaiSectionChunks]
    constructor
    · intro h
      rcases List.mem_cons.mp h with hhead | h
      · have h2 : (elisionChunk k).data[0]?
            = (strCat ["### ", pyTitle (underscoresToSpaces categoryF), " (",
               toString count, " features)\n\n"]).data[0]? := by rw [hhead]
        rw [elisionChunk_get0, sensai_header_get0] at h2
        exact absurd h2 (by decide)
      rcases List.mem_append.mp h with h | h
      rcases List.mem_append.mp h with h | h
      · obtain ⟨f, _, hf⟩ := List.mem_map.mp h
        exact absurd hf (sensaiItemChunk_ne_elisionChunk f k)
      · by_cases hlen : 10 < features.length
        · rw [if_pos hlen] at h
          exact ⟨hlen, List.mem_singleton.mp h⟩
        · rw [if_neg hlen] at h
          exact absurd h (List.not_mem_nil _)
      · have hh := List.mem_singleton.mp h
        have h2 : (elisionChunk k).data[0]? = ("\n" : String).data[0]? := by rw [hh]
        rw [elisionChunk_get0] at h2
        exact absurd h2 (by decide)
    · rintro ⟨hlen, heq⟩
      rw [heq]
      refine List.mem_cons_of_mem _ (List.mem_append_left _ (List.mem_append_right _ ?_))
      rw [if_pos hlen]
      exact List.mem_singleton_self _
  · rw [enhancedSectionChunks, List.countP_cons]
    rw [show isDashChunk (strCat ["### ", pyTitle (underscoresToSpaces categoryE), " (",
          toString items.length, " items)\n\n"]) = false from by
        rw [isDashChunk, enhanced_header_get0]; rfl]
    rw [List.countP_append, List.countP_append]
    rw [countP_map_all isDashChunk enhancedItemChunk _ (fun it => by
      rw [isDashChunk, show (enhancedItemChunk it).data[0]? = some '-' from by
        rw [show enhancedItemChunk it = strCat ["- ", eItemName it, "\n"] from rfl,
          strCat_head_get _ _ 0 (by decide)]; rfl]
      rfl)]
    rw [show (["\n"] : List String).countP isDashChunk = 0 from rfl]
    rw [List.length_take]
    by_cases hlen : 5 < items.length
    · rw [if_pos hlen, if_pos hlen]
      rw [show ([elisionChunk (items.length - 5)]).countP isDashChunk = 1 from by
        rw [List.countP_cons, isDashChunk, elisionChunk_get0]; rfl]
      rw [if_neg Bool.false_ne_true]
      omega
    · rw [if_neg hlen, if_neg hlen]
      rw [show ([] : List String).countP isDashChunk = 0 from rfl]
      rw [if_neg Bool.false_ne_true]
      omega
  · rw [enhancedSectionChunks]
    constructor
    · intro h
      rcases List.mem_cons.mp h with hhead | h
      · have h2 : (elisionChunk k).data[0]?
            = (strCat ["### ", pyTitle (underscoresToSpaces categoryE), " (",
               toString items.length, " items)\n\n"]).data[0]? := by rw [hhead]
        rw [elisionChunk_get0, enhanced_header_get0] at h2
        exact absurd h2 (by decide)
      rcases List.mem_append.mp h with h | h
      rcases List.mem_append.mp h with h | h
      · obtain ⟨it, hit, hchunk⟩ := List.mem_map.mp h
        exact absurd hchunk (hnoalias it (List.mem_of_mem_take hit) k)
      · by_cases hlen : 5 < items.length
        · rw [if_pos hlen] at h
          exact ⟨hlen, List.mem_singleton.mp h⟩
        · rw [if_neg hlen] at h
          exact absurd h (List.not_mem_nil _)
      · have hh := List.mem_singleton.mp h
        have h2 : (elisionChunk k).data[0]? = ("\n" : String).data[0]? := by rw [hh]
        rw [elisionChunk_get0] at h2
        exact absurd h2 (by decide)
    · rintro ⟨hlen, heq⟩
      rw [heq]
      refine List.mem_cons_of_mem _ (List.mem_append_left _ (List.mem_append_right _ ?_))
      rw [if_pos hlen]
      exact List.mem_singleton_self _

/-- Witness for C8 (amended) at concrete groups: an untruncated one-feature
section for the N = 10 report and a truncated seven-item enhanced group. -/
theorem c8_section_truncation_witness :
    (∀ it ∈ ([EItem.str "alpha", EItem.str "beta", EItem.str "gamma", EItem.str "delta",
              EItem.str "epsilon", EItem.str "zeta", EItem.str "eta"] : List EItem),
      ∀ j, enhancedItemChunk it ≠ elisionChunk j) ∧
    ((sensaiSectionChunks "configuration" 1
        [varRecOf "config_mode" 7]).filter isStarChunk
      = [sensaiItemChunk (varRecOf "config_mode" 7)]) ∧
    (elisionChunk 2 ∈ enhancedSectionChunks "misc"
        [EItem.str "alpha", EItem.str "beta", EItem.str "gamma", EItem.str "delta",
         EItem.str "epsilon", EItem.str "zeta", EItem.str "eta"]) := by
  have hno : ∀ it ∈ ([EItem.str "alpha", EItem.str "beta", EItem.str "gamma",
      EItem.str "delta", EItem.str "epsilon", EItem.str "zeta",
      EItem.str "eta"] : List EItem), ∀ j, enhancedItemChunk it ≠ elisionChunk j := by
    intro it hit j
    fin_cases hit <;> exact enhancedItemChunk_ne_elision_of_head _ (by decide) j
  have h := c8_section_truncation "configuration" "misc" 1 [varRecOf "config_mode" 7]
    [EItem.str "alpha", EItem.str "beta", EItem.str "gamma", EItem.str "delta",
     EItem.str "epsilon", EItem.str "zeta", EItem.str "eta"] 2 hno
  exact ⟨hno, h.1, h.2.2.2.mpr ⟨by decide, rfl⟩⟩

end Kg
